import Mathlib

/-!
# Verification of the stat-keeper event ledger (`src/app.py`)

Shallow embedding of the `StatBook` event ledger, the grammar builder and
the voice-command parser from `app.py`, together with proofs of the
documented properties (undo, temporal deduplication, suppression,
auto point-advance throttle, bounded history).

Modelling conventions:
* wall-clock timestamps (`time.time()` floats) are modelled as rationals;
  each ledger operation receives the single instant `now` at which it runs;
* Python dicts of per-player counters are association lists in insertion
  order (dict insertion appends, update preserves position);
* the event dicts become a structure with `Option` fields for the keys that
  are present only on some event kinds (`dict.get` returns `None` ⇒ `none`);
* every definition is executable so that concrete witnesses evaluate.
-/

set_option maxHeartbeats 1000000

namespace StatApp

/-- Per-player counters, mirroring the dict created by `StatBook._blank`. -/
structure PlayerStats where
  ds : Nat
  assists : Nat
  scores : Nat
  throws : Nat
  completions : Nat
  turnovers : Nat
  hucks : Nat
  huck_completions : Nat
  drops : Nat
deriving DecidableEq, Repr

/-- `StatBook._blank`: all counters zero. -/
def blankStats : PlayerStats :=
  { ds := 0, assists := 0, scores := 0, throws := 0, completions := 0
    turnovers := 0, hucks := 0, huck_completions := 0, drops := 0 }

/-- An entry of `StatBook.events`.  The Python code stores dicts whose keys
depend on the event type; absent keys (read with `dict.get`, returning
`None`) are modelled as `none`.  The purely cosmetic `"t"` wall-clock string
is omitted (never read back). -/
structure Event where
  ts_epoch : ℚ
  type : String
  game : Nat
  point : Nat
  player : Option String := none
  thrower : Option String := none
  receiver : Option String := none
  outcome : Option String := none
deriving DecidableEq, Repr

/-- The player map: normalized name to counters, in insertion order. -/
abbrev Players := List (String × PlayerStats)

/-- The dict built by `StatBook._snapshot`. -/
structure Snapshot where
  game_no : Nat
  point_no : Nat
  events_len : Nat
  players : Players
deriving DecidableEq, Repr

/-- The whole `StatBook` state (`_history` is the undo stack,
`_last_point_change` the auto-advance throttle timestamp). -/
structure StatBook where
  roster : List String
  game_no : Nat
  point_no : Nat
  events : List Event
  players : Players
  history : List Snapshot
  last_point_change : ℚ
deriving DecidableEq, Repr

/-- `StatBook._history_max`. -/
def HISTORY_MAX : Nat := 1000

/-- `DEDUPE_WINDOW_SEC = 4.0`. -/
def DEDUPE_WINDOW_SEC : ℚ := 4

/-- `str.lower()` (character-wise lowering). -/
def lowerStr (s : String) : String := String.mk (s.data.map Char.toLower)

/-- `str.strip()` (drop leading and trailing whitespace). -/
def trimStr (s : String) : String :=
  String.mk (((s.data.dropWhile Char.isWhitespace).reverse.dropWhile
    Char.isWhitespace).reverse)

/-- Name normalization used throughout: `name.lower().strip()`. -/
def normName (x : String) : String := trimStr (lowerStr x)

/-- Association-list lookup (Python `players[x]` / `x in players`). -/
def lookupP (ps : Players) (n : String) : Option PlayerStats :=
  (ps.find? (fun e => e.1 == n)).map (fun e => e.2)

/-- The mutating part of `StatBook._ensure`: lazily create a zero entry for
an unseen nonempty normalized name (dict insertion appends at the end). -/
def ensure (ps : Players) (n : String) : Players :=
  if n = "" then ps
  else if (lookupP ps n).isSome then ps
  else ps ++ [(n, blankStats)]

/-- In-place update of one player's counters
(Python `self.players[x][k] += 1`). -/
def bump (ps : Players) (n : String) (f : PlayerStats → PlayerStats) : Players :=
  ps.map (fun e => if e.1 = n then (e.1, f e.2) else e)

/-- Roster normalization from `StatBook.__init__`:
`[r.strip().lower() for r in roster if r.strip()]`. -/
def normRoster (roster : List String) : List String :=
  (roster.filter (fun r => trimStr r ≠ "")).map (fun r => lowerStr (trimStr r))

/-- The initial player dict `{n: blank for n in roster}` (a dict comparison
keeps the first position of a duplicated key; values are all blank). -/
def initPlayers (roster : List String) : Players :=
  roster.foldl (fun ps n => if (lookupP ps n).isSome then ps else ps ++ [(n, blankStats)]) []

/-- `StatBook.__init__` followed by `reset()`. -/
def mkStatBook (roster : List String) : StatBook :=
  let r := normRoster roster
  { roster := r, game_no := 1, point_no := 1, events := []
    players := initPlayers r, history := [], last_point_change := 0 }

/-- `StatBook._snapshot` (the deep copy is value semantics here). -/
def StatBook.snapshot (s : StatBook) : Snapshot :=
  { game_no := s.game_no, point_no := s.point_no
    events_len := s.events.length, players := s.players }

/-- `StatBook._push_history`: append the snapshot, then discard the oldest
entry if the stack exceeds `HISTORY_MAX`. -/
def StatBook.pushHistory (s : StatBook) : StatBook :=
  let h := s.history ++ [s.snapshot]
  { s with history := if HISTORY_MAX < h.length then h.drop 1 else h }

/-- `StatBook.undo`: pop the most recent snapshot, restore game/point/players
and truncate the event log to the recorded length; `false` on empty stack. -/
def StatBook.undo (s : StatBook) : Bool × StatBook :=
  match s.history.getLast? with
  | none => (false, s)
  | some m =>
      (true, { s with
                 history := s.history.dropLast
                 game_no := m.game_no, point_no := m.point_no
                 players := m.players, events := s.events.take m.events_len })

/-- Scan body of `StatBook._find_recent_completed`, run over the reversed
event list (`for ev in reversed(self.events)`).  The scan skips events of the
wrong game/point, type, outcome, thrower or receiver, and terminates at the
first candidate, returning it if it is within the window and breaking
(returning `none`) if it is older. -/
def findRecentAux (g p : Nat) (now : ℚ) (x : String) (y : Option String) (w : ℚ) :
    List Event → Option Event
  | [] => none
  | ev :: rest =>
      if ev.game ≠ g ∨ ev.point ≠ p then findRecentAux g p now x y w rest
      else if ¬ (ev.type = "throw" ∨ ev.type = "huck") then findRecentAux g p now x y w rest
      else if ev.outcome ≠ some "completed" then findRecentAux g p now x y w rest
      else if ev.thrower ≠ some x then findRecentAux g p now x y w rest
      else if y.isSome ∧ ev.receiver ≠ y then findRecentAux g p now x y w rest
      else if now - ev.ts_epoch ≤ w then some ev
      else none

/-- `StatBook._find_recent_completed`. -/
def StatBook.findRecentCompleted (s : StatBook) (now : ℚ) (x : String)
    (y : Option String) (w : ℚ) : Option Event :=
  findRecentAux s.game_no s.point_no now x y w s.events.reverse

/-- Scan body of `StatBook._has_recent_assist`: the first assist event by `x`
in the current game/point decides the answer (no further scanning). -/
def hasRecentAssistAux (g p : Nat) (now : ℚ) (x : String) (w : ℚ) :
    List Event → Bool
  | [] => false
  | ev :: rest =>
      if ev.game ≠ g ∨ ev.point ≠ p then hasRecentAssistAux g p now x w rest
      else if ev.type ≠ "assist" then hasRecentAssistAux g p now x w rest
      else if ev.player ≠ some x then hasRecentAssistAux g p now x w rest
      else decide (now - ev.ts_epoch ≤ w)

/-- `StatBook._has_recent_assist`. -/
def StatBook.hasRecentAssist (s : StatBook) (now : ℚ) (x : String) (w : ℚ) : Bool :=
  hasRecentAssistAux s.game_no s.point_no now x w s.events.reverse

/-- `StatBook.new_game`. -/
def StatBook.new_game (s : StatBook) (now : ℚ) : StatBook :=
  let s1 := s.pushHistory
  { s1 with
    game_no := s1.game_no + 1, point_no := 1
    players := s1.players.map (fun e => (e.1, blankStats))
    last_point_change := now
    events := [{ ts_epoch := now, type := "new_game"
                 game := s1.game_no + 1, point := 1 }] }

/-- `StatBook.new_point(push_history=…, reason=…)`. -/
def StatBook.new_point (s : StatBook) (now : ℚ) (pushHist : Bool) (reason : String) :
    StatBook :=
  if reason = "auto" ∧ now - s.last_point_change < 1 then s
  else
    let s1 := if pushHist then s.pushHistory else s
    { s1 with
      point_no := s1.point_no + 1, last_point_change := now
      events := s1.events ++ [{ ts_epoch := now, type := "new_point"
                                game := s1.game_no, point := s1.point_no + 1 }] }

/-- `StatBook.record_d`. -/
def StatBook.record_d (s : StatBook) (now : ℚ) (x : String) : StatBook :=
  let s1 := s.pushHistory
  let n := normName x
  let s2 := { s1 with players := ensure s1.players n }
  if n = "" then s2
  else
    { s2 with
      players := bump s2.players n (fun st => { st with ds := st.ds + 1 })
      events := s2.events ++ [{ ts_epoch := now, type := "d"
                                game := s2.game_no, point := s2.point_no
                                player := some n }] }

/-- `StatBook.record_drop`. -/
def StatBook.record_drop (s : StatBook) (now : ℚ) (x : String) : StatBook :=
  let s1 := s.pushHistory
  let n := normName x
  let s2 := { s1 with players := ensure s1.players n }
  if n = "" then s2
  else
    { s2 with
      players := bump s2.players n (fun st => { st with drops := st.drops + 1 })
      events := s2.events ++ [{ ts_epoch := now, type := "drop"
                                game := s2.game_no, point := s2.point_no
                                player := some n }] }

/-- `StatBook.record_score`. -/
def StatBook.record_score (s : StatBook) (now : ℚ) (y : String) : StatBook :=
  let s1 := s.pushHistory
  let n := normName y
  let s2 := { s1 with players := ensure s1.players n }
  if n = "" then s2
  else
    { s2 with
      players := bump s2.players n (fun st => { st with scores := st.scores + 1 })
      events := s2.events ++ [{ ts_epoch := now, type := "score"
                                game := s2.game_no, point := s2.point_no
                                player := some n }] }

/-- `StatBook.record_assist`: dedup against a recent completed throw/huck by
the same thrower (then only assist + inferred score), otherwise the full
assist + throw + completion; always followed by the grouped auto new point. -/
def StatBook.record_assist (s : StatBook) (now : ℚ) (x : String) : StatBook :=
  let s1 := s.pushHistory
  let n := normName x
  let s2 := { s1 with players := ensure s1.players n }
  if n = "" then s2
  else
    match s2.findRecentCompleted now n none DEDUPE_WINDOW_SEC with
    | some recent =>
        let s3 : StatBook := { s2 with
          players := bump s2.players n (fun st => { st with assists := st.assists + 1 })
          events := s2.events ++ [{ ts_epoch := now, type := "assist"
                                    game := s2.game_no, point := s2.point_no
                                    player := some n }] }
        let s4 : StatBook :=
          match recent.receiver with
          | some yv =>
              if yv = "" then s3
              else
                { s3 with
                  players := bump s3.players yv (fun st => { st with scores := st.scores + 1 })
                  events := s3.events ++ [{ ts_epoch := now, type := "score"
                                            game := s3.game_no, point := s3.point_no
                                            player := some yv }] }
          | none => s3
        s4.new_point now false "auto"
    | none =>
        let s3 : StatBook := { s2 with
          players := bump s2.players n (fun st =>
            { st with
              assists := st.assists + 1, throws := st.throws + 1
              completions := st.completions + 1 })
          events := s2.events ++ [{ ts_epoch := now, type := "assist"
                                    game := s2.game_no, point := s2.point_no
                                    player := some n }] }
        s3.new_point now false "auto"

/-- `StatBook.record_throw` (`result == "turn"` adds a turnover, anything
else a completion; suppressed entirely after a recent assist by the thrower). -/
def StatBook.record_throw (s : StatBook) (now : ℚ) (x y result : String) : StatBook :=
  let s1 := s.pushHistory
  let nx := normName x
  let s2 := { s1 with players := ensure s1.players nx }
  let ny := normName y
  let s3 : StatBook := { s2 with players := ensure s2.players ny }
  if nx = "" ∨ ny = "" then s3
  else if s3.hasRecentAssist now nx DEDUPE_WINDOW_SEC then s3
  else
    { s3 with
      players := bump s3.players nx (fun st =>
        if result = "turn" then { st with throws := st.throws + 1, turnovers := st.turnovers + 1 }
        else { st with throws := st.throws + 1, completions := st.completions + 1 })
      events := s3.events ++ [{ ts_epoch := now, type := "throw"
                                game := s3.game_no, point := s3.point_no
                                thrower := some nx, receiver := some ny
                                outcome := some result }] }

/-- `StatBook.record_huck` (also counts a huck, and a huck completion on a
completed outcome; same suppression rule as `record_throw`). -/
def StatBook.record_huck (s : StatBook) (now : ℚ) (x y result : String) : StatBook :=
  let s1 := s.pushHistory
  let nx := normName x
  let s2 := { s1 with players := ensure s1.players nx }
  let ny := normName y
  let s3 : StatBook := { s2 with players := ensure s2.players ny }
  if nx = "" ∨ ny = "" then s3
  else if s3.hasRecentAssist now nx DEDUPE_WINDOW_SEC then s3
  else
    { s3 with
      players := bump s3.players nx (fun st =>
        if result = "turn" then
          { st with
            throws := st.throws + 1, hucks := st.hucks + 1
            turnovers := st.turnovers + 1 }
        else
          { st with
            throws := st.throws + 1, hucks := st.hucks + 1
            completions := st.completions + 1
            huck_completions := st.huck_completions + 1 })
      events := s3.events ++ [{ ts_epoch := now, type := "huck"
                                game := s3.game_no, point := s3.point_no
                                thrower := some nx, receiver := some ny
                                outcome := some result }] }

/-- `StatBook.record_assist_to`: the recent-completed search additionally
filtered by the receiver. -/
def StatBook.record_assist_to (s : StatBook) (now : ℚ) (x y : String) : StatBook :=
  let s1 := s.pushHistory
  let nx := normName x
  let s2 := { s1 with players := ensure s1.players nx }
  let ny := normName y
  let s3 : StatBook := { s2 with players := ensure s2.players ny }
  if nx = "" ∨ ny = "" then s3
  else
    match s3.findRecentCompleted now nx (some ny) DEDUPE_WINDOW_SEC with
    | some _ =>
        let s4 : StatBook := { s3 with
          players := bump s3.players nx (fun st => { st with assists := st.assists + 1 })
          events := s3.events ++ [{ ts_epoch := now, type := "assist"
                                    game := s3.game_no, point := s3.point_no
                                    player := some nx }] }
        let s5 : StatBook := { s4 with
          players := bump s4.players ny (fun st => { st with scores := st.scores + 1 })
          events := s4.events ++ [{ ts_epoch := now, type := "score"
                                    game := s4.game_no, point := s4.point_no
                                    player := some ny }] }
        s5.new_point now false "auto"
    | none =>
        let s4 : StatBook := { s3 with
          players := bump s3.players nx (fun st =>
            { st with
              assists := st.assists + 1, throws := st.throws + 1
              completions := st.completions + 1 })
          events := s3.events ++ [{ ts_epoch := now, type := "assist"
                                    game := s3.game_no, point := s3.point_no
                                    player := some nx }] }
        let s5 : StatBook := { s4 with
          players := bump s4.players ny (fun st => { st with scores := st.scores + 1 })
          events := s4.events ++ [{ ts_epoch := now, type := "score"
                                    game := s4.game_no, point := s4.point_no
                                    player := some ny }] }
        s5.new_point now false "auto"

/-- Observation of a player's counters as the ledger reports them
(missing rows show the all-zero counters they would be created with). -/
def StatBook.statsOf (s : StatBook) (n : String) : PlayerStats :=
  (lookupP s.players n).getD blankStats

/-- Events are appended with the current wall clock, so the log is ordered
by timestamp (spec: timestamps are "monotonic for dedup comparisons"). -/
def Chronological (l : List Event) : Prop :=
  l.Pairwise (fun a b => a.ts_epoch ≤ b.ts_epoch)

/-! ## Grammar builder and command parser

The parser in `app.py` works with regular expressions over the normalized
transcript; every pattern is an anchored alternation of literal roster names
(with `\\s+` for internal whitespace) and fixed keywords separated by
whitespace.  We embed texts as their whitespace-separated word lists, names
as word lists, and each regex as the corresponding word-pattern with the
regex engine's backtracking order (alternatives in the order of
`build_name_regex`, longest name strings first; optional pieces tried
greedily first). -/

/-- `RESULT_WORDS`-based normalization `norm_result` (identity default,
`None` passed through). -/
def norm_result (w : Option String) : Option String :=
  w.map (fun v =>
    let lw := lowerStr v
    if lw = "complete" ∨ lw = "completion" ∨ lw = "completed" then "completed"
    else if lw = "turnover" ∨ lw = "turn" ∨ lw = "turned" then "turn"
    else lw)

/-- Global control phrases added first in `build_grammar_phrases`. -/
def CONTROL_PHRASES : List String :=
  ["new game", "new point",
   "undo", "undo last", "revert", "go back", "scratch that", "cancel last"]

def OUTCOME_WORDS : List String :=
  ["completed", "complete", "completion", "turn", "turnover", "turned"]

def VERBS_THROW : List String := ["threw", "throw", "passed"]

def VERBS_HUCK : List String := ["huck", "hucked", "hook"]

/-- The single-name phrases of `build_grammar_phrases` for one roster name. -/
def single_phrases (n : String) : List String :=
  [n ++ " d", n ++ " assist", n ++ " assists", n ++ " score", n ++ " scores",
   n ++ " drop", n ++ " drops"]

/-- The pair phrases of `build_grammar_phrases` for one ordered pair of
distinct roster names, in source order: bare `x to y` (plus trailing
outcomes), `x turn/turnover to y`, the throw/huck verb forms (plus trailing
outcomes), and `x assist(s) to y`. -/
def pair_phrases (x y : String) : List String :=
  ([x ++ " to " ++ y] ++ OUTCOME_WORDS.map (fun r => x ++ " to " ++ y ++ " " ++ r)
    ++ [x ++ " turn to " ++ y, x ++ " turnover to " ++ y]
    ++ (VERBS_THROW ++ VERBS_HUCK).flatMap (fun v =>
        [x ++ " " ++ v ++ " to " ++ y]
          ++ OUTCOME_WORDS.map (fun r => x ++ " " ++ v ++ " to " ++ y ++ " " ++ r))
    ++ [x ++ " assist to " ++ y, x ++ " assists to " ++ y])

/-- `build_grammar_phrases`.  The source accumulates the phrases into a
Python set and returns them sorted; we keep the accumulation list itself,
which contains exactly the same phrases (membership is all the properties
below use). -/
def build_grammar_phrases (roster : List String) : List String :=
  let r := normRoster roster
  CONTROL_PHRASES
    ++ r.flatMap single_phrases
    ++ r.flatMap (fun x => r.flatMap (fun y => if x = y then [] else pair_phrases x y))

/-- Parsed actions (`ActionKind` plus its payload). -/
inductive Action where
  | undo_cmd
  | new_game_cmd
  | new_point_cmd
  | d (x : String)
  | drop (x : String)
  | assist (x : String)
  | score (y : String)
  | assist_to (x y : String)
  | throw (x y : String) (result : Option String)
  | huck (x y : String) (result : Option String)
deriving DecidableEq, Repr

/-- Split into whitespace-separated words, dropping empty pieces (a regex
`\\s+` separator). -/
def splitWSAux : List Char → List Char → List String
  | [], cur => if cur.isEmpty then [] else [String.mk cur.reverse]
  | c :: rest, cur =>
      if c.isWhitespace then
        if cur.isEmpty then splitWSAux rest []
        else String.mk cur.reverse :: splitWSAux rest []
      else splitWSAux rest (c :: cur)

/-- Whitespace word split of a string. -/
def wordsOf (s : String) : List String := splitWSAux s.data []

/-- The fixed stopword set stripped before parsing. -/
def STOPWORDS : List String :=
  ["uh", "um", "like", "and", "then", "now", "okay", "ok", "alright"]

/-- Normalization in `parse_command`: lowercase, then drop the stopwords. -/
def normWords (text : String) : List String :=
  (wordsOf (lowerStr text)).filter (fun w => w ∉ STOPWORDS)

/-- Stable insertion into a length-descending list (earlier names stay
first among equal lengths, as Python `sorted(…, key=len, reverse=True)`). -/
def insertByLenDesc (a : String) : List String → List String
  | [] => [a]
  | b :: rest => if a.length < b.length then b :: insertByLenDesc a rest
                 else a :: b :: rest

/-- Stable sort, longest string first. -/
def sortByLenDesc : List String → List String
  | [] => []
  | a :: rest => insertByLenDesc a (sortByLenDesc rest)

/-- `build_name_regex`: the roster names (normalized, blanks dropped) as an
alternation ordered by string length, longest first (stable), each name a
word list. -/
def nameOrder (roster : List String) : List (List String) :=
  (sortByLenDesc (((roster.map (fun r => lowerStr (trimStr r))).filter
    (fun r => r ≠ "")))).map wordsOf

/-- Collapse the matched name text back to a single-space string
(`re.sub(r"\\s+", " ", m.group(..)).strip()`). -/
def joinName (n : List String) : String := String.intercalate " " n

/-- Match one name alternation at the start of `ws` and continue with `k`;
alternatives are tried in order and the engine backtracks into the next
alternative when the continuation fails, exactly like the regex
`(?:name1|name2|...)` inside a larger anchored pattern. -/
def tryNames (names : List (List String)) (ws : List String)
    (k : List String → List String → Option Action) : Option Action :=
  match names with
  | [] => none
  | n :: rest =>
      (if n.isPrefixOf ws then k n (ws.drop n.length) else none).orElse
        (fun _ => tryNames rest ws k)

/-- Contiguous-sublist test used for the word-boundary searches
(`re.search(r"\\b...\\b", s)` over word sequences). -/
def isInfixW (pat : List String) : List String → Bool
  | [] => pat.isEmpty
  | w :: rest => pat.isPrefixOf (w :: rest) || isInfixW pat rest

/-- The undo synonym alternation
`\\b(undo|revert|go back|scratch that|cancel last)\\b`. -/
def undoSyn (ws : List String) : Bool :=
  isInfixW ["undo"] ws || isInfixW ["revert"] ws || isInfixW ["go", "back"] ws
    || isInfixW ["scratch", "that"] ws || isInfixW ["cancel", "last"] ws

/-- `parse_command(text, roster_regex)`; patterns tried in the fixed source
order, first match wins.  Notes kept from the regexes: the `d` pattern has
no end anchor (trailing words allowed); `to` may be recognized as the digit
`2` in the result-before-to, bare and throw-verb patterns; the throw verb
alternation `threw|throw|passed?` accepts `passe` as well as `passed`; the
huck pattern's `to` is optional (tried greedily first). -/
def parse_command (text : String) (roster : List String) : Option Action :=
  let ws := normWords text
  let names := nameOrder roster
  if ¬ (isInfixW ["new", "game"] ws ∨ isInfixW ["new", "point"] ws
        ∨ undoSyn ws = true ∨ names.any (fun n => isInfixW n ws)) then none
  else if undoSyn ws then some .undo_cmd
  else if isInfixW ["new", "game"] ws then some .new_game_cmd
  else if isInfixW ["new", "point"] ws then some .new_point_cmd
  else
    -- the patterns, in source order; the first one that matches wins
    let p_d := tryNames names ws (fun n rest =>
      match rest with
      | "d" :: _ => some (.d (joinName n))
      | _ => none)
    let p_drop := tryNames names ws (fun n rest =>
      match rest with
      | ["drop"] | ["drops"] => some (.drop (joinName n))
      | _ => none)
    let p_assist := tryNames names ws (fun n rest =>
      match rest with
      | ["assist"] | ["assists"] => some (.assist (joinName n))
      | _ => none)
    let p_score := tryNames names ws (fun n rest =>
      match rest with
      | ["score"] | ["scores"] => some (.score (joinName n))
      | _ => none)
    let p_assist_to := tryNames names ws (fun x r1 =>
      match r1 with
      | w :: "to" :: r2 =>
          if w = "assist" ∨ w = "assists" then
            tryNames names r2 (fun y r3 =>
              if r3 = [] then some (.assist_to (joinName x) (joinName y)) else none)
          else none
      | _ => none)
    let p_result_to := tryNames names ws (fun x r1 =>
      match r1 with
      | r :: t :: r2 =>
          if r ∈ OUTCOME_WORDS ∧ (t = "to" ∨ t = "2") then
            tryNames names r2 (fun y r3 =>
              if r3 = [] then
                some (.throw (joinName x) (joinName y) (norm_result (some r)))
              else none)
          else none
      | _ => none)
    let p_bare := tryNames names ws (fun x r1 =>
      match r1 with
      | t :: r2 =>
          if t = "to" ∨ t = "2" then
            tryNames names r2 (fun y r3 =>
              match r3 with
              | [] => some (.throw (joinName x) (joinName y) (norm_result none))
              | [r] =>
                  if r ∈ OUTCOME_WORDS then
                    some (.throw (joinName x) (joinName y) (norm_result (some r)))
                  else none
              | _ => none)
          else none
      | _ => none)
    let p_throw_verb := tryNames names ws (fun x r1 =>
      match r1 with
      | v :: t :: r2 =>
          if (v = "threw" ∨ v = "throw" ∨ v = "passed" ∨ v = "passe")
              ∧ (t = "to" ∨ t = "2") then
            tryNames names r2 (fun y r3 =>
              match r3 with
              | [] => some (.throw (joinName x) (joinName y) (norm_result none))
              | [r] =>
                  if r ∈ OUTCOME_WORDS then
                    some (.throw (joinName x) (joinName y) (norm_result (some r)))
                  else none
              | _ => none)
          else none
      | _ => none)
    let p_huck := tryNames names ws (fun x r1 =>
      match r1 with
      | v :: r2 =>
          if v = "huck" ∨ v = "hucked" ∨ v = "hook" then
            let tryRecv : List String → Option Action := fun r3 =>
              tryNames names r3 (fun y r4 =>
                match r4 with
                | [] => some (.huck (joinName x) (joinName y) (norm_result none))
                | [r] =>
                    if r ∈ OUTCOME_WORDS then
                      some (.huck (joinName x) (joinName y) (norm_result (some r)))
                    else none
                | _ => none)
            (match r2 with
             | "to" :: r3 => tryRecv r3
             | _ => none).orElse (fun _ => tryRecv r2)
          else none
      | _ => none)
    ((((((((p_d.orElse (fun _ => p_drop)).orElse (fun _ => p_assist)).orElse
      (fun _ => p_score)).orElse (fun _ => p_assist_to)).orElse
      (fun _ => p_result_to)).orElse (fun _ => p_bare)).orElse
      (fun _ => p_throw_verb)).orElse (fun _ => p_huck))

/-! ## Auxiliary definitions for the stated properties -/

/-- The Boolean form of the full filter of `_find_recent_completed`:
right game and point, a completed throw or huck by `x`, optionally to `y`,
within the window. -/
def recentPred (g p : Nat) (now : ℚ) (x : String) (y : Option String) (w : ℚ)
    (ev : Event) : Bool :=
  ev.game == g && ev.point == p && (ev.type == "throw" || ev.type == "huck")
    && ev.outcome == some "completed" && ev.thrower == some x
    && (!y.isSome || ev.receiver == y) && decide (now - ev.ts_epoch ≤ w)

/-- Modelled from the spec: the *unbounded* newest-first search over the
event log for the most recent completed throw/huck by `x` (optionally to
`y`) within the window — no early break on age; the claim is that the
age-break in `_find_recent_completed` never changes the result on a
chronological log. -/
def StatBook.findRecentCompletedSpec (s : StatBook) (now : ℚ) (x : String)
    (y : Option String) (w : ℚ) : Option Event :=
  s.events.reverse.find? (recentPred s.game_no s.point_no now x y w)

/-- The mutating ledger operations of §4.4 (undo and queries excluded),
with their payloads. -/
inductive MutOp where
  | newGame
  | newPointManual
  | recordD (x : String)
  | recordDrop (x : String)
  | recordScore (y : String)
  | recordThrow (x y result : String)
  | recordHuck (x y result : String)
  | recordAssist (x : String)
  | recordAssistTo (x y : String)
deriving DecidableEq, Repr

/-- Dispatch a mutating operation at instant `now` (manual `new_point` is
the socket-command call `BOOK.new_point()`: default `push_history=True`,
`reason="manual"`). -/
def applyMut (op : MutOp) (now : ℚ) (s : StatBook) : StatBook :=
  match op with
  | .newGame => s.new_game now
  | .newPointManual => s.new_point now true "manual"
  | .recordD x => s.record_d now x
  | .recordDrop x => s.record_drop now x
  | .recordScore y => s.record_score now y
  | .recordThrow x y result => s.record_throw now x y result
  | .recordHuck x y result => s.record_huck now x y result
  | .recordAssist x => s.record_assist now x
  | .recordAssistTo x y => s.record_assist_to now x y

/-- The seven `record_*` operations (the scope of the frame/guard claim). -/
def MutOp.isRecord : MutOp → Bool
  | .newGame | .newPointManual => false
  | _ => true

/-- States reachable from a fresh `StatBook` by the public operations. -/
inductive Reachable : StatBook → Prop where
  | init (roster : List String) : Reachable (mkStatBook roster)
  | step_new_point (now : ℚ) (pushHist : Bool) (reason : String) {s : StatBook} :
      Reachable s → Reachable (s.new_point now pushHist reason)
  | step_mut (op : MutOp) (now : ℚ) {s : StatBook} :
      Reachable s → Reachable (applyMut op now s)
  | step_undo {s : StatBook} : Reachable s → Reachable s.undo.2

/-- `n` consecutive undos. -/
def undoIter : Nat → StatBook → StatBook
  | 0, s => s
  | n + 1, s => undoIter n s.undo.2

/-- Frame of every mutating operation except `new_game`: exactly the one
initial history snapshot is pushed, the game number is untouched, and the
event log is only appended to (with the point number untouched whenever
nothing was appended). -/
def FrameOK (s t : StatBook) : Prop :=
  t.history = s.pushHistory.history ∧ t.game_no = s.game_no ∧
    t.events.take s.events.length = s.events ∧
    (t.events.length = s.events.length → t.point_no = s.point_no)

/-- The self-pair phrase shapes that the grammar must not contain for a
roster name `x`: `x to x`, `x <verb> to x`, `x assist(s) to x`. -/
def selfPairForms (x : String) : List String :=
  [x ++ " to " ++ x]
    ++ (VERBS_THROW ++ VERBS_HUCK).map (fun v => x ++ " " ++ v ++ " to " ++ x)
    ++ [x ++ " assist to " ++ x, x ++ " assists to " ++ x]

/-- A fixture event: a completed throw jake-to-mario at instant 1 of game 1,
point 1. -/
def throwEvA : Event :=
  { ts_epoch := 1, type := "throw", game := 1, point := 1
    thrower := some "jake", receiver := some "mario", outcome := some "completed" }

/-- A fixture ledger whose log holds just `throwEvA`. -/
def bookA : StatBook :=
  { roster := ["jake", "mario"], game_no := 1, point_no := 1, events := [throwEvA]
    players := initPlayers ["jake", "mario"], history := [], last_point_change := 0 }

/-- A fixture event: an assist by jake at instant 10 of game 1, point 1. -/
def assistEvB : Event :=
  { ts_epoch := 10, type := "assist", game := 1, point := 1, player := some "jake" }

/-- A fixture ledger whose log holds just `assistEvB`. -/
def bookB : StatBook :=
  { roster := ["jake", "mario"], game_no := 1, point_no := 1, events := [assistEvB]
    players := initPlayers ["jake", "mario"], history := [], last_point_change := 0 }

/-! ## Basic lemmas -/

@[simp] theorem pushHistory_game_no (s : StatBook) : s.pushHistory.game_no = s.game_no := rfl

@[simp] theorem pushHistory_point_no (s : StatBook) : s.pushHistory.point_no = s.point_no := rfl

@[simp] theorem pushHistory_events (s : StatBook) : s.pushHistory.events = s.events := rfl

@[simp] theorem pushHistory_players (s : StatBook) : s.pushHistory.players = s.players := rfl

@[simp] theorem pushHistory_lpc (s : StatBook) :
    s.pushHistory.last_point_change = s.last_point_change := rfl

/-- The snapshot just pushed is always the top of the history stack
(the overflow pop removes the oldest entry, not the newest). -/
theorem pushHistory_getLast (s : StatBook) :
    s.pushHistory.history.getLast? = some s.snapshot := by
  unfold StatBook.pushHistory
  dsimp only
  split
  · next hlen =>
      have h1 : 1 ≤ s.history.length := by
        by_contra hc
        have h0 : s.history.length = 0 := by omega
        simp [h0, HISTORY_MAX] at hlen
      rw [List.drop_append_of_le_length h1]
      exact List.getLast?_concat _
  · exact List.getLast?_concat _

/-- Undoing any state whose history is the pushed stack of `s` and whose
event log extends that of `s` succeeds and restores the ledger of `s`. -/
theorem undo_after_push (s t : StatBook) (hh : t.history = s.pushHistory.history)
    (he : t.events.take s.events.length = s.events) :
    t.undo.1 = true ∧ t.undo.2.game_no = s.game_no ∧ t.undo.2.point_no = s.point_no
      ∧ t.undo.2.players = s.players ∧ t.undo.2.events = s.events := by
  unfold StatBook.undo
  rw [hh, pushHistory_getLast]
  exact ⟨rfl, rfl, rfl, rfl, he⟩

theorem lookupP_nil (n : String) : lookupP [] n = none := rfl

theorem lookupP_cons (e : String × PlayerStats) (rest : Players) (m : String) :
    lookupP (e :: rest) m = if e.1 = m then some e.2 else lookupP rest m := by
  by_cases h : e.1 = m
  · rw [if_pos h]
    unfold lookupP
    rw [List.find?_cons_of_pos _ (by simpa using h)]
    rfl
  · rw [if_neg h]
    unfold lookupP
    rw [List.find?_cons_of_neg _ (by simpa using h)]

theorem bump_cons (e : String × PlayerStats) (rest : Players) (n : String)
    (f : PlayerStats → PlayerStats) :
    bump (e :: rest) n f = (if e.1 = n then (e.1, f e.2) else e) :: bump rest n f := rfl

theorem lookupP_bump_self (ps : Players) (n : String) (f : PlayerStats → PlayerStats) :
    lookupP (bump ps n f) n = (lookupP ps n).map f := by
  induction ps with
  | nil => rfl
  | cons e rest ih =>
      rw [bump_cons, lookupP_cons, lookupP_cons]
      by_cases h : e.1 = n
      · simp [h]
      · simp [h, ih]

theorem lookupP_bump_ne (ps : Players) (n m : String) (f : PlayerStats → PlayerStats)
    (h : m ≠ n) : lookupP (bump ps n f) m = lookupP ps m := by
  induction ps with
  | nil => rfl
  | cons e rest ih =>
      rw [bump_cons, lookupP_cons, lookupP_cons]
      by_cases he : e.1 = n
      · have hnm : n ≠ m := fun hc => h hc.symm
        simp [he, hnm, ih]
      · simp [he, ih]

theorem lookupP_append_single (ps : Players) (n m : String) (st : PlayerStats) :
    lookupP (ps ++ [(n, st)]) m =
      (match lookupP ps m with
       | some v => some v
       | none => if n = m then some st else none) := by
  induction ps with
  | nil => rw [List.nil_append, lookupP_cons]; rfl
  | cons e rest ih =>
      rw [List.cons_append, lookupP_cons, lookupP_cons]
      by_cases h : e.1 = m
      · simp [h]
      · simp [h, ih]

theorem lookupP_ensure_self (ps : Players) (n : String) (hn : n ≠ "") :
    lookupP (ensure ps n) n = some ((lookupP ps n).getD blankStats) := by
  unfold ensure
  rw [if_neg hn]
  rcases h : lookupP ps n with _ | st
  · rw [if_neg (by simp [h]), lookupP_append_single, h]
    simp
  · rw [if_pos (by simp [h]), h]
    rfl

theorem lookupP_ensure_ne (ps : Players) (n m : String) (h : m ≠ n) :
    lookupP (ensure ps n) m = lookupP ps m := by
  unfold ensure
  split
  · rfl
  · split
    · rfl
    · rw [lookupP_append_single]
      rcases hm : lookupP ps m with _ | st
      · rw [if_neg (fun hc => h hc.symm)]
      · rfl

/-- Creating a missing row (all-zero counters) does not change any observed
counters. -/
theorem getD_ensure (ps : Players) (n m : String) :
    (lookupP (ensure ps n) m).getD blankStats = (lookupP ps m).getD blankStats := by
  by_cases hm : m = n
  · subst hm
    by_cases hn : m = ""
    · subst hn; rfl
    · rw [lookupP_ensure_self ps m hn]; rfl
  · rw [lookupP_ensure_ne ps n m hm]

/-! ## Frame lemmas: every operation except `new_game` pushes exactly the
one initial snapshot, keeps the game number, and only appends events -/

theorem take_append_one {α : Type} (l : List α) (a : α) :
    (l ++ [a]).take l.length = l := List.take_left l [a]

theorem take_append_two {α : Type} (l : List α) (a b : α) :
    (l ++ [a] ++ [b]).take l.length = l := by
  rw [List.append_assoc]
  exact List.take_left l ([a] ++ [b])

theorem len_append_one_ne {α : Type} (l : List α) (a : α) :
    (l ++ [a]).length = l.length → False := by
  intro h
  simp only [List.length_append, List.length_cons, List.length_nil] at h
  omega

theorem len_append_two_ne {α : Type} (l : List α) (a b : α) :
    (l ++ [a] ++ [b]).length = l.length → False := by
  intro h
  simp only [List.length_append, List.length_cons, List.length_nil] at h
  omega

theorem FrameOK_new_point_nopush {s t : StatBook} (h : FrameOK s t) (now : ℚ)
    (reason : String) : FrameOK s (t.new_point now false reason) := by
  obtain ⟨hh, hg, hpre, hp⟩ := h
  have hle : s.events.length ≤ t.events.length := by
    have := congrArg List.length hpre
    simp only [List.length_take] at this
    omega
  unfold StatBook.new_point
  split
  · exact ⟨hh, hg, hpre, hp⟩
  · refine ⟨hh, hg, ?_, ?_⟩
    · show (t.events ++ [_]).take s.events.length = s.events
      rw [List.take_append_of_le_length hle]
      exact hpre
    · intro hc
      rw [List.length_append] at hc
      simp at hc
      omega

theorem record_d_frame (s : StatBook) (now : ℚ) (x : String) :
    FrameOK s (s.record_d now x) := by
  unfold FrameOK
  simp only [StatBook.record_d]
  split
  · exact ⟨rfl, rfl, List.take_length s.events, fun _ => rfl⟩
  · exact ⟨rfl, rfl, take_append_one _ _, fun hc => absurd hc (by
      intro hc
      exact len_append_one_ne _ _ hc)⟩

theorem record_drop_frame (s : StatBook) (now : ℚ) (x : String) :
    FrameOK s (s.record_drop now x) := by
  unfold FrameOK
  simp only [StatBook.record_drop]
  split
  · exact ⟨rfl, rfl, List.take_length s.events, fun _ => rfl⟩
  · exact ⟨rfl, rfl, take_append_one _ _, fun hc => absurd hc (by
      intro hc
      exact len_append_one_ne _ _ hc)⟩

theorem record_score_frame (s : StatBook) (now : ℚ) (y : String) :
    FrameOK s (s.record_score now y) := by
  unfold FrameOK
  simp only [StatBook.record_score]
  split
  · exact ⟨rfl, rfl, List.take_length s.events, fun _ => rfl⟩
  · exact ⟨rfl, rfl, take_append_one _ _, fun hc => absurd hc (by
      intro hc
      exact len_append_one_ne _ _ hc)⟩

theorem record_throw_frame (s : StatBook) (now : ℚ) (x y result : String) :
    FrameOK s (s.record_throw now x y result) := by
  unfold FrameOK
  simp only [StatBook.record_throw]
  split
  · exact ⟨rfl, rfl, List.take_length s.events, fun _ => rfl⟩
  · split
    · exact ⟨rfl, rfl, List.take_length s.events, fun _ => rfl⟩
    · exact ⟨rfl, rfl, take_append_one _ _, fun hc => absurd hc (by
        intro hc
        exact len_append_one_ne _ _ hc)⟩

theorem record_huck_frame (s : StatBook) (now : ℚ) (x y result : String) :
    FrameOK s (s.record_huck now x y result) := by
  unfold FrameOK
  simp only [StatBook.record_huck]
  split
  · exact ⟨rfl, rfl, List.take_length s.events, fun _ => rfl⟩
  · split
    · exact ⟨rfl, rfl, List.take_length s.events, fun _ => rfl⟩
    · exact ⟨rfl, rfl, take_append_one _ _, fun hc => absurd hc (by
        intro hc
        exact len_append_one_ne _ _ hc)⟩

theorem record_assist_frame (s : StatBook) (now : ℚ) (x : String) :
    FrameOK s (s.record_assist now x) := by
  simp only [StatBook.record_assist]
  split
  · exact ⟨rfl, rfl, List.take_length s.events, fun _ => rfl⟩
  · split
    · apply FrameOK_new_point_nopush
      split
      · split
        · exact ⟨rfl, rfl, take_append_one _ _, fun hc => absurd hc (by
            intro hc
            exact len_append_one_ne _ _ hc)⟩
        · exact ⟨rfl, rfl, take_append_two _ _ _, fun hc => absurd hc (by
            intro hc
            exact len_append_two_ne _ _ _ hc)⟩
      · exact ⟨rfl, rfl, take_append_one _ _, fun hc => absurd hc (by
          intro hc
          exact len_append_one_ne _ _ hc)⟩
    · apply FrameOK_new_point_nopush
      exact ⟨rfl, rfl, take_append_one _ _, fun hc => absurd hc (by
        intro hc
        exact len_append_one_ne _ _ hc)⟩

theorem record_assist_to_frame (s : StatBook) (now : ℚ) (x y : String) :
    FrameOK s (s.record_assist_to now x y) := by
  simp only [StatBook.record_assist_to]
  split
  · exact ⟨rfl, rfl, List.take_length s.events, fun _ => rfl⟩
  · split
    · apply FrameOK_new_point_nopush
      exact ⟨rfl, rfl, take_append_two _ _ _, fun hc => absurd hc (by
        intro hc
        exact len_append_two_ne _ _ _ hc)⟩
    · apply FrameOK_new_point_nopush
      exact ⟨rfl, rfl, take_append_two _ _ _, fun hc => absurd hc (by
        intro hc
        exact len_append_two_ne _ _ _ hc)⟩

theorem new_point_manual_frame (s : StatBook) (now : ℚ) :
    FrameOK s (s.new_point now true "manual") := by
  unfold FrameOK
  simp only [StatBook.new_point]
  split
  · next hc => simp at hc
  · exact ⟨rfl, rfl, take_append_one _ _, fun hc => absurd hc (by
      intro hc
      exact len_append_one_ne _ _ hc)⟩

/-- Every mutating operation except `new_game` satisfies the frame. -/
theorem applyMut_frame (op : MutOp) (now : ℚ) (s : StatBook) (hop : op ≠ .newGame) :
    FrameOK s (applyMut op now s) := by
  cases op with
  | newGame => exact absurd rfl hop
  | newPointManual => exact new_point_manual_frame s now
  | recordD x => exact record_d_frame s now x
  | recordDrop x => exact record_drop_frame s now x
  | recordScore y => exact record_score_frame s now y
  | recordThrow x y result => exact record_throw_frame s now x y result
  | recordHuck x y result => exact record_huck_frame s now x y result
  | recordAssist x => exact record_assist_frame s now x
  | recordAssistTo x y => exact record_assist_to_frame s now x y

/-- `new_game` also pushes exactly the one snapshot (its event log however
is reset, not appended). -/
theorem new_game_history (s : StatBook) (now : ℚ) :
    (s.new_game now).history = s.pushHistory.history := rfl

/-! ## Scan lemmas: the dedup searches on a chronological log -/

theorem recentPred_iff (g p : Nat) (now : ℚ) (x : String) (y : Option String)
    (w : ℚ) (ev : Event) :
    recentPred g p now x y w ev = true ↔
      (ev.game = g ∧ ev.point = p ∧ (ev.type = "throw" ∨ ev.type = "huck") ∧
        ev.outcome = some "completed" ∧ ev.thrower = some x ∧
        (y.isSome → ev.receiver = y) ∧ now - ev.ts_epoch ≤ w) := by
  simp only [recentPred, Bool.and_eq_true, Bool.or_eq_true, beq_iff_eq,
    decide_eq_true_eq, Bool.not_eq_true']
  constructor
  · rintro ⟨⟨⟨⟨⟨⟨h1, h2⟩, h3⟩, h4⟩, h5⟩, h6⟩, h7⟩
    refine ⟨h1, h2, h3, h4, h5, ?_, h7⟩
    intro hy
    rcases h6 with h6 | h6
    · rw [hy] at h6
      cases h6
    · exact h6
  · rintro ⟨h1, h2, h3, h4, h5, h6, h7⟩
    refine ⟨⟨⟨⟨⟨⟨h1, h2⟩, h3⟩, h4⟩, h5⟩, ?_⟩, h7⟩
    by_cases hy : y.isSome
    · exact Or.inr (h6 hy)
    · exact Or.inl (by simpa using hy)

/-- On a newest-first list with non-increasing timestamps, the age-break
scan of `_find_recent_completed` computes exactly the unrestricted
first-match search. -/
theorem findRecentAux_eq_find? (g p : Nat) (now : ℚ) (x : String)
    (y : Option String) (w : ℚ) (r : List Event)
    (hr : r.Pairwise (fun a b => b.ts_epoch ≤ a.ts_epoch)) :
    findRecentAux g p now x y w r = r.find? (recentPred g p now x y w) := by
  induction r with
  | nil => rfl
  | cons ev rest ih =>
      have hhead : ∀ b ∈ rest, b.ts_epoch ≤ ev.ts_epoch := (List.pairwise_cons.mp hr).1
      have htail := (List.pairwise_cons.mp hr).2
      by_cases h1 : ev.game ≠ g ∨ ev.point ≠ p
      · have hpf : ¬ recentPred g p now x y w ev = true := by
          rw [recentPred_iff]
          rintro ⟨hg, hp, -⟩
          tauto
        simp only [findRecentAux, if_pos h1]
        rw [List.find?_cons_of_neg _ hpf]
        exact ih htail
      · by_cases h2 : ¬ (ev.type = "throw" ∨ ev.type = "huck")
        · have hpf : ¬ recentPred g p now x y w ev = true := by
            rw [recentPred_iff]
            rintro ⟨-, -, ht, -⟩
            exact h2 ht
          simp only [findRecentAux, if_neg h1, if_pos h2]
          rw [List.find?_cons_of_neg _ hpf]
          exact ih htail
        · by_cases h3 : ev.outcome ≠ some "completed"
          · have hpf : ¬ recentPred g p now x y w ev = true := by
              rw [recentPred_iff]
              rintro ⟨-, -, -, ho, -⟩
              exact h3 ho
            simp only [findRecentAux, if_neg h1, if_neg h2, if_pos h3]
            rw [List.find?_cons_of_neg _ hpf]
            exact ih htail
          · by_cases h4 : ev.thrower ≠ some x
            · have hpf : ¬ recentPred g p now x y w ev = true := by
                rw [recentPred_iff]
                rintro ⟨-, -, -, -, ht, -⟩
                exact h4 ht
              simp only [findRecentAux, if_neg h1, if_neg h2, if_neg h3, if_pos h4]
              rw [List.find?_cons_of_neg _ hpf]
              exact ih htail
            · by_cases h5 : y.isSome ∧ ev.receiver ≠ y
              · have hpf : ¬ recentPred g p now x y w ev = true := by
                  rw [recentPred_iff]
                  rintro ⟨-, -, -, -, -, hr', -⟩
                  exact h5.2 (hr' h5.1)
                simp only [findRecentAux, if_neg h1, if_neg h2, if_neg h3, if_neg h4,
                  if_pos h5]
                rw [List.find?_cons_of_neg _ hpf]
                exact ih htail
              · by_cases hw : now - ev.ts_epoch ≤ w
                · have hpt : recentPred g p now x y w ev = true := by
                    rw [recentPred_iff]
                    push_neg at h1 h2 h3 h4 h5
                    refine ⟨h1.1, h1.2, by tauto, by tauto, by tauto, ?_, hw⟩
                    intro hy
                    by_cases hre : ev.receiver = y
                    · exact hre
                    · exact absurd hy (by
                        intro hys
                        exact hre (h5 hys))
                  simp only [findRecentAux, if_neg h1, if_neg h2, if_neg h3, if_neg h4,
                    if_neg h5, if_pos hw]
                  rw [List.find?_cons_of_pos _ hpt]
                · have hpf : ¬ recentPred g p now x y w ev = true := by
                    rw [recentPred_iff]
                    rintro ⟨-, -, -, -, -, -, hw'⟩
                    exact hw hw'
                  simp only [findRecentAux, if_neg h1, if_neg h2, if_neg h3, if_neg h4,
                    if_neg h5, if_neg hw]
                  rw [List.find?_cons_of_neg _ hpf]
                  symm
                  rw [List.find?_eq_none]
                  intro b hb
                  rw [recentPred_iff]
                  rintro ⟨-, -, -, -, -, -, hwb⟩
                  have hble := hhead b hb
                  have : now - ev.ts_epoch ≤ now - b.ts_epoch := by linarith
                  exact hw (le_trans this hwb)

/-- The age-break never changes the `_find_recent_completed` result on a
chronological log. -/
theorem findRecentCompleted_eq_spec (s : StatBook) (now : ℚ) (x : String)
    (y : Option String) (w : ℚ) (hc : Chronological s.events) :
    s.findRecentCompleted now x y w = s.findRecentCompletedSpec now x y w := by
  unfold StatBook.findRecentCompleted StatBook.findRecentCompletedSpec
  apply findRecentAux_eq_find?
  rw [List.pairwise_reverse]
  exact hc

/-- On a newest-first list with non-increasing timestamps,
`_has_recent_assist` answers `true` whenever some assist event for `x` in
the current game/point lies within the window (the scan stops at the newest
such event, which is at least as recent). -/
theorem hasRecentAssistAux_true (g p : Nat) (now : ℚ) (x : String) (w : ℚ)
    (r : List Event) (hr : r.Pairwise (fun a b => b.ts_epoch ≤ a.ts_epoch))
    (hex : ∃ e ∈ r, e.game = g ∧ e.point = p ∧ e.type = "assist" ∧
      e.player = some x ∧ now - e.ts_epoch ≤ w) :
    hasRecentAssistAux g p now x w r = true := by
  induction r with
  | nil =>
      obtain ⟨e, he, -⟩ := hex
      cases he
  | cons ev rest ih =>
      obtain ⟨e, he, hprops⟩ := hex
      have hhead : ∀ b ∈ rest, b.ts_epoch ≤ ev.ts_epoch := (List.pairwise_cons.mp hr).1
      have htail := (List.pairwise_cons.mp hr).2
      by_cases h1 : ev.game ≠ g ∨ ev.point ≠ p
      · simp only [hasRecentAssistAux, if_pos h1]
        apply ih htail
        rcases List.mem_cons.mp he with rfl | hmem
        · exact absurd h1 (by
            push_neg
            exact ⟨hprops.1, hprops.2.1⟩)
        · exact ⟨e, hmem, hprops⟩
      · by_cases h2 : ev.type ≠ "assist"
        · simp only [hasRecentAssistAux, if_neg h1, if_pos h2]
          apply ih htail
          rcases List.mem_cons.mp he with rfl | hmem
          · exact absurd hprops.2.2.1 h2
          · exact ⟨e, hmem, hprops⟩
        · by_cases h3 : ev.player ≠ some x
          · simp only [hasRecentAssistAux, if_neg h1, if_neg h2, if_pos h3]
            apply ih htail
            rcases List.mem_cons.mp he with rfl | hmem
            · exact absurd hprops.2.2.2.1 h3
            · exact ⟨e, hmem, hprops⟩
          · simp only [hasRecentAssistAux, if_neg h1, if_neg h2, if_neg h3]
            rw [decide_eq_true_iff]
            rcases List.mem_cons.mp he with rfl | hmem
            · exact hprops.2.2.2.2
            · have h1 := hhead e hmem
              have h2 := hprops.2.2.2.2
              linarith

/-! ## History-bound lemmas -/

theorem pushHistory_length_le (s : StatBook) (h : s.history.length ≤ HISTORY_MAX) :
    s.pushHistory.history.length ≤ HISTORY_MAX := by
  unfold StatBook.pushHistory
  dsimp only
  split
  · next hgt =>
      rw [List.length_drop]
      simp only [List.length_append, List.length_cons, List.length_nil] at hgt ⊢
      omega
  · next hle =>
      push_neg at hle
      simp only [List.length_append, List.length_cons, List.length_nil] at hle ⊢
      omega

theorem new_point_history_cases (s : StatBook) (now : ℚ) (pushHist : Bool)
    (reason : String) :
    (s.new_point now pushHist reason).history = s.history ∨
      (s.new_point now pushHist reason).history = s.pushHistory.history := by
  unfold StatBook.new_point
  split
  · exact Or.inl rfl
  · cases pushHist
    · exact Or.inl rfl
    · exact Or.inr rfl

theorem undo_history_length_le (s : StatBook) :
    s.undo.2.history.length ≤ s.history.length := by
  unfold StatBook.undo
  rcases h : s.history.getLast? with _ | m
  · exact le_refl _
  · dsimp only
    rw [List.length_dropLast]
    omega

/-- Every mutating operation (including `new_game`) pushes exactly the one
initial snapshot onto the history stack. -/
theorem applyMut_history (op : MutOp) (now : ℚ) (s : StatBook) :
    (applyMut op now s).history = s.pushHistory.history := by
  by_cases hop : op = MutOp.newGame
  · subst hop
    exact new_game_history s now
  · exact (applyMut_frame op now s hop).1

theorem reachable_history_le (s : StatBook) (h : Reachable s) :
    s.history.length ≤ HISTORY_MAX := by
  induction h with
  | init roster => simp [mkStatBook, HISTORY_MAX]
  | step_new_point now pushHist reason hs ih =>
      rcases new_point_history_cases _ now pushHist reason with hc | hc
      · rw [hc]; exact ih
      · rw [hc]; exact pushHistory_length_le _ ih
  | step_mut op now hs ih =>
      rw [applyMut_history]
      exact pushHistory_length_le _ ih
  | step_undo hs ih => exact le_trans (undo_history_length_le _) ih

theorem undoIter_history_length (n : Nat) (s : StatBook) :
    (undoIter n s).history.length ≤ s.history.length - n := by
  induction n generalizing s with
  | zero => simp [undoIter]
  | succ n ih =>
      show (undoIter n s.undo.2).history.length ≤ s.history.length - (n + 1)
      rcases h : s.history.getLast? with _ | m
      · have h0 : s.history = [] := List.getLast?_eq_none_iff.mp h
        have hs : s.undo.2 = s := by
          unfold StatBook.undo
          rw [h]
        rw [hs]
        have := ih s
        rw [h0] at this ⊢
        simpa using this
      · have hd : s.undo.2.history = s.history.dropLast := by
          unfold StatBook.undo
          rw [h]
        have := ih s.undo.2
        rw [hd, List.length_dropLast] at this
        omega

/-! ## The claims -/

/-- C4: on a chronological event log, the age-break backward scan of
`_find_recent_completed` returns exactly what the unbounded newest-first
within-window search returns — the short-circuit is an optimization, not a
filter. -/
theorem claim4_scan_break_equiv (s : StatBook) (now : ℚ) (x : String)
    (y : Option String) (hc : Chronological s.events) :
    s.findRecentCompleted now x y DEDUPE_WINDOW_SEC
      = s.findRecentCompletedSpec now x y DEDUPE_WINDOW_SEC :=
  findRecentCompleted_eq_spec s now x y DEDUPE_WINDOW_SEC hc

/-- Witness for C4 on a concrete log: a completed throw 9 seconds old in the
current point; both searches reject it (outside the window). -/
theorem claim4_scan_break_equiv_witness :
    Chronological bookA.events ∧
      bookA.findRecentCompleted 10 "jake" none DEDUPE_WINDOW_SEC
        = bookA.findRecentCompletedSpec 10 "jake" none DEDUPE_WINDOW_SEC :=
  ⟨by simp [bookA, Chronological], claim4_scan_break_equiv _ 10 "jake" none
    (by simp [bookA, Chronological])⟩

/-- C6: an auto `new_point` under 1 second after the last point change is a
complete no-op (the whole state, hence point number, event log and history
stack, is unchanged), so two auto calls within 1 second advance the point
number exactly once. -/
theorem claim6_auto_throttle (s : StatBook) (t1 t2 : ℚ) (p1 p2 : Bool) :
    (t1 - s.last_point_change < 1 → s.new_point t1 p1 "auto" = s) ∧
      (1 ≤ t1 - s.last_point_change → t2 - t1 < 1 →
        ((s.new_point t1 p1 "auto").new_point t2 p2 "auto")
          = s.new_point t1 p1 "auto" ∧
        ((s.new_point t1 p1 "auto").new_point t2 p2 "auto").point_no
          = s.point_no + 1) := by
  constructor
  · intro h
    unfold StatBook.new_point
    rw [if_pos ⟨rfl, h⟩]
  · intro h1 h2
    have hfst : (s.new_point t1 p1 "auto").last_point_change = t1 ∧
        (s.new_point t1 p1 "auto").point_no = s.point_no + 1 := by
      unfold StatBook.new_point
      rw [if_neg (by
        rintro ⟨-, hlt⟩
        linarith)]
      cases p1 <;> exact ⟨rfl, rfl⟩
    have hsnd : (s.new_point t1 p1 "auto").new_point t2 p2 "auto"
        = s.new_point t1 p1 "auto" := by
      conv_lhs => rw [StatBook.new_point]
      rw [if_pos ⟨rfl, by rw [hfst.1]; linarith⟩]
    exact ⟨hsnd, by rw [hsnd, hfst.2]⟩

/-- Witness for C6 at a concrete state and times. -/
theorem claim6_auto_throttle_witness :
    ((0 : ℚ) - (mkStatBook ["jake"]).last_point_change < 1 →
      (mkStatBook ["jake"]).new_point 0 true "auto" = mkStatBook ["jake"]) ∧
      (1 ≤ (5 : ℚ) - (mkStatBook ["jake"]).last_point_change → (5.5 : ℚ) - 5 < 1 →
        (((mkStatBook ["jake"]).new_point 5 true "auto").new_point 5.5 true "auto")
          = (mkStatBook ["jake"]).new_point 5 true "auto" ∧
        (((mkStatBook ["jake"]).new_point 5 true "auto").new_point 5.5 true "auto").point_no
          = (mkStatBook ["jake"]).point_no + 1) := by
  have h1 := claim6_auto_throttle (mkStatBook ["jake"]) 0 0 true true
  have h2 := claim6_auto_throttle (mkStatBook ["jake"]) 5 5.5 true true
  exact ⟨h1.1, h2.2⟩

/-- C9: `undo` on an empty history stack returns the failure flag and the
entire state unchanged (no exception path); on a non-empty stack it returns
success. -/
theorem claim9_undo_empty (s : StatBook) :
    (s.history = [] → s.undo = (false, s)) ∧ (s.history ≠ [] → s.undo.1 = true) := by
  constructor
  · intro h
    unfold StatBook.undo
    rw [List.getLast?_eq_none_iff.mpr h]
  · intro h
    unfold StatBook.undo
    rcases hl : s.history.getLast? with _ | m
    · exact absurd (List.getLast?_eq_none_iff.mp hl) h
    · rfl

/-- Witness for C9: the fresh book fails to undo and is unchanged; after one
snapshot push, undo succeeds. -/
theorem claim9_undo_empty_witness :
    (mkStatBook ["jake"]).undo = (false, mkStatBook ["jake"]) ∧
      (mkStatBook ["jake"]).pushHistory.undo.1 = true :=
  ⟨(claim9_undo_empty (mkStatBook ["jake"])).1 rfl,
    (claim9_undo_empty (mkStatBook ["jake"]).pushHistory).2 (by decide)⟩

/-- C8: in every reachable state the snapshot stack holds at most 1000
entries; a push onto a full stack discards exactly the oldest entry; and
after 1000 consecutive undos the next (1001st) undo fails. -/
theorem claim8_bounded_history (s : StatBook) (h : Reachable s) :
    s.history.length ≤ HISTORY_MAX ∧
      (s.history.length = HISTORY_MAX →
        s.pushHistory.history = s.history.drop 1 ++ [s.snapshot]) ∧
      (undoIter HISTORY_MAX s).undo.1 = false := by
  have hle := reachable_history_le s h
  refine ⟨hle, ?_, ?_⟩
  · intro hfull
    unfold StatBook.pushHistory
    dsimp only
    rw [if_pos (by
      rw [List.length_append, hfull]
      simp [HISTORY_MAX])]
    exact List.drop_append_of_le_length (by rw [hfull]; simp [HISTORY_MAX])
  · have h0 : (undoIter HISTORY_MAX s).history.length = 0 := by
      have := undoIter_history_length HISTORY_MAX s
      omega
    have hnil : (undoIter HISTORY_MAX s).history = [] := List.length_eq_zero.mp h0
    unfold StatBook.undo
    rw [List.getLast?_eq_none_iff.mpr hnil]

/-- Witness for C8 at the (reachable) fresh book. -/
theorem claim8_bounded_history_witness :
    (mkStatBook ["jake"]).history.length ≤ HISTORY_MAX ∧
      ((mkStatBook ["jake"]).history.length = HISTORY_MAX →
        (mkStatBook ["jake"]).pushHistory.history
          = (mkStatBook ["jake"]).history.drop 1 ++ [(mkStatBook ["jake"]).snapshot]) ∧
      (undoIter HISTORY_MAX (mkStatBook ["jake"])).undo.1 = false :=
  claim8_bounded_history (mkStatBook ["jake"]) (Reachable.init ["jake"])

/-- C3: a `record_throw` or `record_huck` issued within the 4-second window
of an `assist` event for the same (normalized) thrower in the current
(game, point) — on a chronological log — changes no player counter and
appends no event. -/
theorem claim3_suppression (s : StatBook) (now : ℚ) (x y result : String)
    (hc : Chronological s.events)
    (hex : ∃ e ∈ s.events, e.game = s.game_no ∧ e.point = s.point_no ∧
      e.type = "assist" ∧ e.player = some (normName x) ∧
      now - e.ts_epoch ≤ DEDUPE_WINDOW_SEC) :
    ((∀ n, (s.record_throw now x y result).statsOf n = s.statsOf n) ∧
      (s.record_throw now x y result).events = s.events) ∧
    ((∀ n, (s.record_huck now x y result).statsOf n = s.statsOf n) ∧
      (s.record_huck now x y result).events = s.events) := by
  have hra : s.hasRecentAssist now (normName x) DEDUPE_WINDOW_SEC = true := by
    unfold StatBook.hasRecentAssist
    apply hasRecentAssistAux_true
    · rw [List.pairwise_reverse]
      exact hc
    · obtain ⟨e, he, hp⟩ := hex
      exact ⟨e, List.mem_reverse.mpr he, hp⟩
  have hst : ∀ n, (lookupP (ensure (ensure s.players (normName x)) (normName y)) n).getD
      blankStats = (lookupP s.players n).getD blankStats :=
    fun n => (getD_ensure _ _ _).trans (getD_ensure _ _ _)
  constructor
  · simp only [StatBook.record_throw]
    split
    · exact ⟨hst, rfl⟩
    · split
      · exact ⟨hst, rfl⟩
      · next hno => exact absurd hra hno
  · simp only [StatBook.record_huck]
    split
    · exact ⟨hst, rfl⟩
    · split
      · exact ⟨hst, rfl⟩
      · next hno => exact absurd hra hno

/-- Witness for C3: jake recorded an assist 2 seconds ago in the current
point; his follow-up throw is a full no-op (no counter change, no event). -/
theorem claim3_suppression_witness :
    (∃ e ∈ bookB.events, e.game = bookB.game_no ∧ e.point = bookB.point_no ∧
      e.type = "assist" ∧ e.player = some (normName "jake") ∧
        (12 : ℚ) - e.ts_epoch ≤ DEDUPE_WINDOW_SEC) ∧
    ((∀ n, (bookB.record_throw 12 "jake" "mario" "completed").statsOf n
        = bookB.statsOf n) ∧
      (bookB.record_throw 12 "jake" "mario" "completed").events = bookB.events) := by
  have hex : ∃ e ∈ bookB.events, e.game = bookB.game_no ∧ e.point = bookB.point_no ∧
      e.type = "assist" ∧ e.player = some (normName "jake") ∧
        (12 : ℚ) - e.ts_epoch ≤ DEDUPE_WINDOW_SEC := by
    refine ⟨assistEvB, by simp [bookB], rfl, rfl, rfl, by decide, ?_⟩
    show (12 : ℚ) - (10 : ℚ) ≤ DEDUPE_WINDOW_SEC
    norm_num [DEDUPE_WINDOW_SEC]
  exact ⟨hex,
    (claim3_suppression bookB 12 "jake" "mario" "completed"
      (by simp [bookB, Chronological]) hex).1⟩

/-- C7: `record_assist` with no completed throw/huck by the thrower within
the window in the current (game, point) — in particular when the only match
is older than the window — takes the full-assist path: assists, throws and
completions each rise by exactly one and the point number advances by one
(given the auto point-advance is not throttled). -/
theorem claim7_full_assist (s : StatBook) (now : ℚ) (x : String)
    (hx : normName x ≠ "") (hc : Chronological s.events)
    (hnone : ¬ ∃ e ∈ s.events, e.game = s.game_no ∧ e.point = s.point_no ∧
      (e.type = "throw" ∨ e.type = "huck") ∧ e.outcome = some "completed" ∧
      e.thrower = some (normName x) ∧ now - e.ts_epoch ≤ DEDUPE_WINDOW_SEC)
    (hlpc : 1 ≤ now - s.last_point_change) :
    (s.record_assist now x).statsOf (normName x) =
      { s.statsOf (normName x) with
        assists := (s.statsOf (normName x)).assists + 1
        throws := (s.statsOf (normName x)).throws + 1
        completions := (s.statsOf (normName x)).completions + 1 } ∧
    (s.record_assist now x).point_no = s.point_no + 1 := by
  have hfind : findRecentAux s.game_no s.point_no now (normName x) none
      DEDUPE_WINDOW_SEC s.events.reverse = none := by
    rw [findRecentAux_eq_find? _ _ _ _ _ _ _
      (by rw [List.pairwise_reverse]; exact hc)]
    rw [List.find?_eq_none]
    intro e he
    rw [recentPred_iff]
    rintro ⟨h1, h2, h3, h4, h5, -, h7⟩
    exact hnone ⟨e, List.mem_reverse.mp he, h1, h2, h3, h4, h5, h7⟩
  simp only [StatBook.record_assist, StatBook.findRecentCompleted,
    pushHistory_game_no, pushHistory_point_no, pushHistory_events,
    pushHistory_players, pushHistory_lpc]
  rw [if_neg hx]
  rw [hfind]
  dsimp only
  unfold StatBook.new_point
  rw [if_neg (by
    rintro ⟨-, hlt⟩
    dsimp only at hlt
    linarith)]
  simp only [Bool.false_eq_true, if_false]
  constructor
  · simp only [StatBook.statsOf]
    rw [lookupP_bump_self, lookupP_ensure_self _ _ hx]
    rfl
  · trivial

/-! ## The dedup scenario (claim C2) -/

/-- `_has_recent_assist` only reads the game/point counters and the log. -/
theorem hasRecentAssist_congr (s t : StatBook) (now : ℚ) (x : String) (w : ℚ)
    (h1 : t.game_no = s.game_no) (h2 : t.point_no = s.point_no)
    (h3 : t.events = s.events) :
    t.hasRecentAssist now x w = s.hasRecentAssist now x w := by
  unfold StatBook.hasRecentAssist
  rw [h1, h2, h3]

/-- A bump of another player leaves observed counters unchanged. -/
theorem getD_bump_ne (ps : Players) (n m : String) (f : PlayerStats → PlayerStats)
    (h : m ≠ n) :
    (lookupP (bump ps n f) m).getD blankStats = (lookupP ps m).getD blankStats := by
  rw [lookupP_bump_ne _ _ _ _ h]

/-- A bump of a present player applies its update to the observed counters. -/
theorem getD_bump_self (ps : Players) (n : String) (f : PlayerStats → PlayerStats)
    (h : (lookupP ps n).isSome = true) :
    (lookupP (bump ps n f) n).getD blankStats = f ((lookupP ps n).getD blankStats) := by
  rw [lookupP_bump_self]
  rcases hl : lookupP ps n with _ | st
  · rw [hl] at h
    cases h
  · rfl

/-- The unsuppressed `record_huck` path, written out. -/
theorem record_huck_not_suppressed (s : StatBook) (now : ℚ) (x y result : String)
    (hx : normName x ≠ "") (hy : normName y ≠ "")
    (hna : s.hasRecentAssist now (normName x) DEDUPE_WINDOW_SEC = false) :
    s.record_huck now x y result =
      { s.pushHistory with
        players := bump (ensure (ensure s.players (normName x)) (normName y)) (normName x)
          (fun st =>
            if result = "turn" then
              { st with
                throws := st.throws + 1, hucks := st.hucks + 1
                turnovers := st.turnovers + 1 }
            else
              { st with
                throws := st.throws + 1, hucks := st.hucks + 1
                completions := st.completions + 1
                huck_completions := st.huck_completions + 1 })
        events := s.events ++ [{ ts_epoch := now, type := "huck", game := s.game_no
                                 point := s.point_no, thrower := some (normName x)
                                 receiver := some (normName y), outcome := some result }] } := by
  simp only [StatBook.record_huck, pushHistory_game_no, pushHistory_point_no,
    pushHistory_events, pushHistory_players, pushHistory_lpc]
  rw [if_neg (by
    rintro (h | h)
    · exact hx h
    · exact hy h)]
  split
  · next hcon =>
      exact absurd
        (show s.hasRecentAssist now (normName x) DEDUPE_WINDOW_SEC = true from hcon)
        (by rw [hna]; simp)
  · rfl

/-- `_ensure` is the identity on an already-present name. -/
theorem ensure_of_mem (ps : Players) (n : String)
    (h : (lookupP ps n).isSome = true) : ensure ps n = ps := by
  simp [ensure, h]

/-- The scan accepts the newest event when it matches within the window. -/
theorem findRecentAux_cons_hit (g p : Nat) (now w : ℚ) (x : String) (ev : Event)
    (rest : List Event) (h1 : ev.game = g) (h2 : ev.point = p)
    (h3 : ev.type = "throw" ∨ ev.type = "huck") (h4 : ev.outcome = some "completed")
    (h5 : ev.thrower = some x) (h6 : now - ev.ts_epoch ≤ w) :
    findRecentAux g p now x none w (ev :: rest) = some ev := by
  simp only [findRecentAux]
  rw [if_neg (by simp [h1, h2]), if_neg (by simp [h3]), if_neg (by simp [h4]),
    if_neg (by simp [h5]), if_neg (by simp), if_pos h6]

/-- C2: a completed `record_huck` by jake to mario followed within the
4-second window (same game and point) by a bare `record_assist` for jake
adds exactly one assist for jake (throws, completions, hucks and huck
completions stay as the huck left them), one score for mario, advances the
point number by one, and appends only an assist, a score and a new-point
event — no further throw or huck effect. -/
theorem claim2_bare_assist_dedup (s : StatBook) (t0 t1 : ℚ) (s1 s2 : StatBook)
    (hs1 : s1 = s.record_huck t0 "jake" "mario" "completed")
    (hs2 : s2 = s1.record_assist t1 "jake")
    (hna : s.hasRecentAssist t0 "jake" DEDUPE_WINDOW_SEC = false)
    (h01 : 0 ≤ t1 - t0) (h14 : t1 - t0 ≤ DEDUPE_WINDOW_SEC)
    (hlpc : 1 ≤ t1 - s.last_point_change) :
    s2.statsOf "jake"
        = { s1.statsOf "jake" with assists := (s1.statsOf "jake").assists + 1 } ∧
      s2.statsOf "mario"
        = { s1.statsOf "mario" with scores := (s1.statsOf "mario").scores + 1 } ∧
      (∀ n, n ≠ "jake" → n ≠ "mario" → s2.statsOf n = s1.statsOf n) ∧
      s2.point_no = s1.point_no + 1 ∧
      s2.events = s1.events ++
        [{ ts_epoch := t1, type := "assist", game := s.game_no, point := s.point_no
           player := some "jake" },
         { ts_epoch := t1, type := "score", game := s.game_no, point := s.point_no
           player := some "mario" },
         { ts_epoch := t1, type := "new_point", game := s.game_no
           point := s.point_no + 1 }] := by
  have hnj : normName "jake" = "jake" := by decide
  have hnm : normName "mario" = "mario" := by decide
  subst hs1 hs2
  rw [record_huck_not_suppressed s t0 "jake" "mario" "completed"
    (by decide) (by decide) (by rw [hnj]; exact hna)]
  rw [hnj, hnm]
  simp only [StatBook.record_assist, StatBook.findRecentCompleted,
    pushHistory_game_no, pushHistory_point_no, pushHistory_events,
    pushHistory_players, pushHistory_lpc, hnj, hnm]
  rw [if_neg (show ¬ ("jake" : String) = "" by decide)]
  simp only [List.reverse_append, List.reverse_cons, List.reverse_nil,
    List.nil_append, List.cons_append, List.singleton_append]
  have hfind := findRecentAux_cons_hit s.game_no s.point_no t1 DEDUPE_WINDOW_SEC
    "jake" ⟨t0, "huck", s.game_no, s.point_no, none, some "jake", some "mario",
      some "completed"⟩ s.events.reverse rfl rfl (Or.inr rfl) rfl rfl h14
  rw [hfind]
  dsimp only
  rw [if_neg (show ¬ ("mario" : String) = "" by decide)]
  unfold StatBook.new_point
  rw [if_neg (by
    rintro ⟨-, hlt⟩
    dsimp only at hlt
    linarith)]
  simp only [Bool.false_eq_true, if_false]
  have hct : ("completed" = "turn") = False := by simp
  simp only [hct, if_false]
  have hsome : ∀ f : PlayerStats → PlayerStats,
      (lookupP (bump (ensure (ensure s.players "jake") "mario") "jake" f)
        "jake").isSome = true := by
    intro f
    rw [lookupP_bump_self, lookupP_ensure_ne _ _ _ (by decide),
      lookupP_ensure_self _ _ (by decide)]
    rfl
  have hsomeMario : ∀ f g : PlayerStats → PlayerStats,
      (lookupP (bump (bump (ensure (ensure s.players "jake") "mario") "jake" f)
        "jake" g) "mario").isSome = true := by
    intro f g
    rw [lookupP_bump_ne _ _ _ _ (by decide), lookupP_bump_ne _ _ _ _ (by decide),
      lookupP_ensure_self _ _ (by decide)]
    rfl
  rw [ensure_of_mem _ _ (hsome _)]
  simp only [StatBook.statsOf]
  refine ⟨?_, ?_, ?_, ?_, ?_⟩
  · rw [getD_bump_ne _ _ _ _ (by decide), getD_bump_self _ _ _ (hsome _)]
  · rw [getD_bump_self _ _ _ (hsomeMario _ _), getD_bump_ne _ _ _ _ (by decide)]
  · intro n hn1 hn2
    rw [getD_bump_ne _ _ _ _ hn2, getD_bump_ne _ _ _ _ hn1]
  · trivial
  · simp [List.append_assoc]

/-- Witness for C2 at the fresh ledger: huck at t=10, bare assist at t=12. -/
theorem claim2_bare_assist_dedup_witness :
    (mkStatBook ["jake", "mario"]).hasRecentAssist 10 "jake" DEDUPE_WINDOW_SEC
        = false ∧
      (((mkStatBook ["jake", "mario"]).record_huck 10 "jake" "mario"
            "completed").record_assist 12 "jake").statsOf "jake"
        = { ((mkStatBook ["jake", "mario"]).record_huck 10 "jake" "mario"
              "completed").statsOf "jake" with
            assists := (((mkStatBook ["jake", "mario"]).record_huck 10 "jake"
              "mario" "completed").statsOf "jake").assists + 1 } ∧
      (((mkStatBook ["jake", "mario"]).record_huck 10 "jake" "mario"
            "completed").record_assist 12 "jake").point_no
        = ((mkStatBook ["jake", "mario"]).record_huck 10 "jake" "mario"
            "completed").point_no + 1 := by
  have h := claim2_bare_assist_dedup (mkStatBook ["jake", "mario"]) 10 12 _ _
    rfl rfl rfl (by norm_num) (by norm_num [DEDUPE_WINDOW_SEC])
    (show (1 : ℚ) ≤ 12 - 0 by norm_num)
  exact ⟨rfl, h.1, h.2.2.2.1⟩

/-- Witness for C7 at the window boundary: the only completed throw by jake
is 4 + 1/100 seconds old — ε = 1/100 beyond the window — so no dedup: the
full-assist path runs. -/
theorem claim7_full_assist_witness :
    normName "jake" ≠ "" ∧ Chronological bookA.events ∧
      (¬ ∃ e ∈ bookA.events, e.game = bookA.game_no ∧ e.point = bookA.point_no ∧
        (e.type = "throw" ∨ e.type = "huck") ∧ e.outcome = some "completed" ∧
        e.thrower = some (normName "jake") ∧
        (5 + 1 / 100 : ℚ) - e.ts_epoch ≤ DEDUPE_WINDOW_SEC) ∧
      1 ≤ (5 + 1 / 100 : ℚ) - bookA.last_point_change ∧
      ((bookA.record_assist (5 + 1 / 100) "jake").statsOf (normName "jake") =
        { bookA.statsOf (normName "jake") with
          assists := (bookA.statsOf (normName "jake")).assists + 1
          throws := (bookA.statsOf (normName "jake")).throws + 1
          completions := (bookA.statsOf (normName "jake")).completions + 1 } ∧
      (bookA.record_assist (5 + 1 / 100) "jake").point_no = bookA.point_no + 1) := by
  have hx : normName "jake" ≠ "" := by decide
  have hc : Chronological bookA.events := by simp [bookA, Chronological]
  have hnone : ¬ ∃ e ∈ bookA.events, e.game = bookA.game_no ∧
      e.point = bookA.point_no ∧ (e.type = "throw" ∨ e.type = "huck") ∧
      e.outcome = some "completed" ∧ e.thrower = some (normName "jake") ∧
      (5 + 1 / 100 : ℚ) - e.ts_epoch ≤ DEDUPE_WINDOW_SEC := by
    rintro ⟨e, he, -, -, -, -, -, hw⟩
    have he' : e = throwEvA := by simpa [bookA] using he
    subst he'
    rw [show throwEvA.ts_epoch = 1 from rfl] at hw
    rw [show DEDUPE_WINDOW_SEC = 4 from rfl] at hw
    norm_num at hw
  have hlpc : 1 ≤ (5 + 1 / 100 : ℚ) - bookA.last_point_change := by
    rw [show bookA.last_point_change = 0 from rfl]
    norm_num
  exact ⟨hx, hc, hnone, hlpc, claim7_full_assist bookA (5 + 1 / 100) "jake"
    hx hc hnone hlpc⟩

/-- C1 (amended): undo exactly inverts every mutating operation except
`new_game` — game number, point number, players and the full event log are
restored; for `new_game`, which clears the log rather than appending, undo
restores the game/point counters and players but only truncates the cleared
log (its length becomes `min (old length) 1`, not the old length). -/
theorem claim1_undo_inverse_amended (op : MutOp) (now : ℚ) (s : StatBook) :
    (op ≠ MutOp.newGame →
      ((applyMut op now s).undo.1 = true ∧
        (applyMut op now s).undo.2.game_no = s.game_no ∧
        (applyMut op now s).undo.2.point_no = s.point_no ∧
        (applyMut op now s).undo.2.players = s.players ∧
        (applyMut op now s).undo.2.events = s.events)) ∧
      ((s.new_game now).undo.1 = true ∧
        (s.new_game now).undo.2.game_no = s.game_no ∧
        (s.new_game now).undo.2.point_no = s.point_no ∧
        (s.new_game now).undo.2.players = s.players ∧
        (s.new_game now).undo.2.events
          = (s.new_game now).events.take s.events.length) := by
  constructor
  · intro hop
    obtain ⟨hh, hg, hpre, hp⟩ := applyMut_frame op now s hop
    exact undo_after_push s _ hh hpre
  · show ((s.new_game now).undo.1 = true ∧ _)
    unfold StatBook.undo
    rw [new_game_history, pushHistory_getLast]
    exact ⟨rfl, rfl, rfl, rfl, rfl⟩

/-- Witness for C1 (amended) at a concrete operation and state. -/
theorem claim1_undo_inverse_amended_witness :
    (applyMut (MutOp.recordD "jake") 5 (mkStatBook ["jake"])).undo.1 = true ∧
      (applyMut (MutOp.recordD "jake") 5 (mkStatBook ["jake"])).undo.2.game_no
        = (mkStatBook ["jake"]).game_no ∧
      (applyMut (MutOp.recordD "jake") 5 (mkStatBook ["jake"])).undo.2.point_no
        = (mkStatBook ["jake"]).point_no ∧
      (applyMut (MutOp.recordD "jake") 5 (mkStatBook ["jake"])).undo.2.players
        = (mkStatBook ["jake"]).players ∧
      (applyMut (MutOp.recordD "jake") 5 (mkStatBook ["jake"])).undo.2.events
        = (mkStatBook ["jake"]).events :=
  (claim1_undo_inverse_amended (MutOp.recordD "jake") 5 (mkStatBook ["jake"])).1
    (by decide)

/-- Counterexample to C1 as stated: from a reachable state with two logged
events, `new_game` followed by `undo` leaves an event log of length 1, not
2 — the log is cleared by `new_game` and cannot be restored by truncation. -/
theorem claim1_undo_inverse_counterexample :
    ((((mkStatBook ["jake", "mario"]).record_d 10 "jake").record_d 11
        "jake").new_game 12).undo.2.events.length
      ≠ (((mkStatBook ["jake", "mario"]).record_d 10 "jake").record_d 11
          "jake").events.length := by decide

/-- C10: each record operation pushes its history snapshot before its
guards run, so a call that changed no players and appended no event (blank
name, or a suppressed throw/huck against already-known players) still left
exactly one new snapshot on the stack, and the next undo succeeds while
restoring precisely the ledger it sees (game, point, players, events all
unchanged by that undo). -/
theorem claim10_guard_after_push (op : MutOp) (now : ℚ) (s : StatBook)
    (hrec : op.isRecord = true)
    (hplayers : (applyMut op now s).players = s.players)
    (hevents : (applyMut op now s).events = s.events) :
    (applyMut op now s).history = s.pushHistory.history ∧
      (applyMut op now s).undo.1 = true ∧
      (applyMut op now s).undo.2.game_no = (applyMut op now s).game_no ∧
      (applyMut op now s).undo.2.point_no = (applyMut op now s).point_no ∧
      (applyMut op now s).undo.2.players = (applyMut op now s).players ∧
      (applyMut op now s).undo.2.events = (applyMut op now s).events := by
  have hop : op ≠ MutOp.newGame := by
    intro h
    subst h
    simp [MutOp.isRecord] at hrec
  obtain ⟨hh, hg, hpre, hp⟩ := applyMut_frame op now s hop
  have hpoint : (applyMut op now s).point_no = s.point_no := hp (by rw [hevents])
  obtain ⟨u1, u2, u3, u4, u5⟩ := undo_after_push s _ hh hpre
  refine ⟨hh, u1, ?_, ?_, ?_, ?_⟩
  · rw [u2, hg]
  · rw [u3, hpoint]
  · rw [u4, hplayers]
  · rw [u5, hevents]

/-- Witness for C10: a `record_d` with a blank player name is a complete
ledger no-op yet pushes its snapshot, and the next undo restores the same
ledger. -/
theorem claim10_guard_after_push_witness :
    (MutOp.recordD "").isRecord = true ∧
      (applyMut (MutOp.recordD "") 7 (mkStatBook ["jake"])).players
        = (mkStatBook ["jake"]).players ∧
      (applyMut (MutOp.recordD "") 7 (mkStatBook ["jake"])).events
        = (mkStatBook ["jake"]).events ∧
      ((applyMut (MutOp.recordD "") 7 (mkStatBook ["jake"])).history
          = (mkStatBook ["jake"]).pushHistory.history ∧
        (applyMut (MutOp.recordD "") 7 (mkStatBook ["jake"])).undo.1 = true ∧
        (applyMut (MutOp.recordD "") 7 (mkStatBook ["jake"])).undo.2.game_no
          = (applyMut (MutOp.recordD "") 7 (mkStatBook ["jake"])).game_no ∧
        (applyMut (MutOp.recordD "") 7 (mkStatBook ["jake"])).undo.2.point_no
          = (applyMut (MutOp.recordD "") 7 (mkStatBook ["jake"])).point_no ∧
        (applyMut (MutOp.recordD "") 7 (mkStatBook ["jake"])).undo.2.players
          = (applyMut (MutOp.recordD "") 7 (mkStatBook ["jake"])).players ∧
        (applyMut (MutOp.recordD "") 7 (mkStatBook ["jake"])).undo.2.events
          = (applyMut (MutOp.recordD "") 7 (mkStatBook ["jake"])).events) :=
  ⟨by decide, by decide, by decide,
    claim10_guard_after_push (MutOp.recordD "") 7 (mkStatBook ["jake"])
      (by decide) (by decide) (by decide)⟩

/-- Counterexample to C5 as stated: (1) with roster
`{a, a to a, a to a to a}` the builder emits the string
`"a to a" ++ " to " ++ "a to a"` (from the distinct pair
`(a, a to a to a)`), which has the form `x to x` for the roster name
`x = "a to a"`; and (2) the parser does not reject equal payloads: on
`"jake to jake"` it returns a throw whose `x` and `y` are both `"jake"`. -/
theorem claim5_self_pair_counterexample :
    "a to a" ∈ normRoster ["a", "a to a", "a to a to a"] ∧
      ("a to a" ++ " to " ++ "a to a")
        ∈ build_grammar_phrases ["a", "a to a", "a to a to a"] ∧
      parse_command "jake to jake" ["Jake", "Mario"]
        = some (Action.throw "jake" "jake" none) := by
  refine ⟨by decide, by decide, by decide⟩

/-- C5 (amended): every phrase of the builder is a control phrase, a
single-name phrase, or a pair phrase generated from two *distinct* roster
names (the x = y pair is skipped); for a roster whose names embed no
connective word — here `{jake, mario, big jake}` — no phrase of the shape
`x to x`, `x <verb> to x` or `x assist(s) to x` occurs at all; the parser,
however, does not enforce x ≠ y: `"jake to jake"` parses as a throw with
equal payloads (such texts are outside the generated grammar). -/
theorem claim5_self_pair_amended :
    (∀ (roster : List String) (p : String), p ∈ build_grammar_phrases roster →
      p ∈ CONTROL_PHRASES ∨
        (∃ n ∈ normRoster roster, p ∈ single_phrases n) ∨
        (∃ x ∈ normRoster roster, ∃ y ∈ normRoster roster, x ≠ y ∧
          p ∈ pair_phrases x y)) ∧
      (∀ x ∈ normRoster ["jake", "mario", "big jake"], ∀ p ∈ selfPairForms x,
        p ∉ build_grammar_phrases ["jake", "mario", "big jake"]) ∧
      parse_command "jake to jake" ["Jake", "Mario"]
        = some (Action.throw "jake" "jake" none) := by
  refine ⟨?_, by decide, by decide⟩
  intro roster p hp
  simp only [build_grammar_phrases, List.mem_append, List.mem_flatMap] at hp
  rcases hp with (hp | ⟨n, hn, hp⟩) | ⟨x, hx, y, hy, hp⟩
  · exact Or.inl hp
  · exact Or.inr (Or.inl ⟨n, hn, hp⟩)
  · right; right
    refine ⟨x, hx, y, hy, ?_⟩
    by_cases hxy : x = y
    · rw [if_pos hxy] at hp
      cases hp
    · rw [if_neg hxy] at hp
      exact ⟨hxy, hp⟩

/-- Witness for C5 (amended): the keyword-free roster does not generate
`"jake to jake"`. -/
theorem claim5_self_pair_amended_witness :
    "jake" ∈ normRoster ["jake", "mario", "big jake"] ∧
      ("jake" ++ " to " ++ "jake") ∈ selfPairForms "jake" ∧
      ("jake" ++ " to " ++ "jake")
        ∉ build_grammar_phrases ["jake", "mario", "big jake"] :=
  ⟨by decide, by decide,
    claim5_self_pair_amended.2.1 "jake" (by decide)
      ("jake" ++ " to " ++ "jake") (by decide)⟩

end StatApp
